import Mathlib

/-!
A verification development for the `qhard` fluxonium module
(`qhard/fluxonium.py`).  The Python class `Fluxonium` is embedded as a
record together with state-passing operations: every method that can
mutate the cached spectrum takes the device and returns the result
paired with the post-call device.  Python exceptions are embedded as an
error type; the distinct raise sites of the source (parameter
validation, bounds checks, input-type checks, and out-of-range indexing
into the eigenvector sequence) map to distinct constructors.

Machine reals/complexes are modelled by `ℝ`/`ℂ`; Python integers by `ℤ`.
The eigensolver (`qutip`/`numpy` library code, not part of the
repository) is a parameter of the spectrum-dependent operations; its
documented contract (ascending eigenvalues, one per basis state,
eigenvectors aligned with eigenvalues) appears as hypotheses.
-/

/-- The error taxonomy of the module: `invalidParameter` for the
`Exception`s raised by the `E_L`/`E_C`/`nlev_lc` setters,
`outOfBounds` for the level/truncation bounds checks, `invalidInput`
for the type check on the flux-variable argument of
`potential`/`wavefunc`, and `indexError` for a Python `IndexError`
coming from indexing past the end of the eigenvector sequence. -/
inductive Err where
  | invalidParameter
  | outOfBounds
  | invalidInput
  | indexError
deriving DecidableEq

/-- The state of a `Fluxonium` object: the physical parameters set in
`__init__` together with the two cache attributes `_eigvals` and
`_eigvecs` managed by `_reset_cache` and `_eigenspectrum_lc`.
Eigenvectors are modelled as `ℕ → ℂ` (component `k` of the vector). -/
structure Fluxonium where
  E_L : ℝ
  E_C : ℝ
  E_J : ℝ
  phi_ext : ℝ
  nlev : ℤ
  nlev_lc : ℤ
  units : String
  eigvals : Option (List ℝ)
  eigvecs : Option (List (ℕ → ℂ))

namespace Fluxonium

/-- `_reset_cache`: sets both cache attributes to `None`. -/
def resetCache (f : Fluxonium) : Fluxonium :=
  { f with eigvals := none, eigvecs := none }

/-- The `E_L` property setter: rejects non-positive values, otherwise
stores the value and resets the cache. -/
noncomputable def setE_L (f : Fluxonium) (value : ℝ) : Except Err Unit × Fluxonium :=
  if value ≤ 0 then (.error .invalidParameter, f)
  else (.ok (), resetCache { f with E_L := value })

/-- The `E_C` property setter: rejects non-positive values, otherwise
stores the value and resets the cache. -/
noncomputable def setE_C (f : Fluxonium) (value : ℝ) : Except Err Unit × Fluxonium :=
  if value ≤ 0 then (.error .invalidParameter, f)
  else (.ok (), resetCache { f with E_C := value })

/-- The `E_J` property setter: always succeeds (a non-positive value
only prints a warning), stores the value and resets the cache. -/
def setE_J (f : Fluxonium) (value : ℝ) : Except Err Unit × Fluxonium :=
  (.ok (), resetCache { f with E_J := value })

/-- The `phi_ext` property setter: accepts any real, stores the value
and resets the cache. -/
def setPhi_ext (f : Fluxonium) (value : ℝ) : Except Err Unit × Fluxonium :=
  (.ok (), resetCache { f with phi_ext := value })

/-- The `nlev_lc` property setter: rejects non-positive values,
otherwise stores the value and resets the cache. -/
def setNlev_lc (f : Fluxonium) (value : ℤ) : Except Err Unit × Fluxonium :=
  if value ≤ 0 then (.error .invalidParameter, f)
  else (.ok (), resetCache { f with nlev_lc := value })

/-- `__init__`: assigns `E_L`, `E_C`, `E_J`, `phi_ext`, `nlev`,
`nlev_lc`, `units` in that order through the property setters, so the
first failing validation (`E_L`, then `E_C`, then `nlev_lc`) aborts
construction; `E_J ≤ 0` only warns.  Both caches end up `None`. -/
noncomputable def init (e_l e_c e_j pext : ℝ) (nl nllc : ℤ) (u : String) :
    Except Err Fluxonium :=
  if e_l ≤ 0 then .error .invalidParameter
  else if e_c ≤ 0 then .error .invalidParameter
  else if nllc ≤ 0 then .error .invalidParameter
  else .ok { E_L := e_l, E_C := e_c, E_J := e_j, phi_ext := pext,
             nlev := nl, nlev_lc := nllc, units := u,
             eigvals := none, eigvecs := none }

end Fluxonium

/-- `qutip.destroy(d)`: the truncated harmonic-oscillator annihilation
operator, with entry `(m, m+1)` equal to `√(m+1)` and zero elsewhere. -/
noncomputable def destroy (d : ℕ) : Matrix (Fin d) (Fin d) ℂ :=
  Matrix.of fun i j =>
    if (j : ℕ) = (i : ℕ) + 1 then (Real.sqrt ((i : ℕ) + 1) : ℂ) else 0

/-- `qutip.position(d) = (a + a†)/√2` with `a = destroy(d)`. -/
noncomputable def position (d : ℕ) : Matrix (Fin d) (Fin d) ℂ :=
  ((Real.sqrt 2 : ℂ))⁻¹ • (destroy d + (destroy d).conjTranspose)

/-- `qutip.momentum(d) = -i (a - a†)/√2` with `a = destroy(d)`. -/
noncomputable def momentum (d : ℕ) : Matrix (Fin d) (Fin d) ℂ :=
  (-Complex.I / (Real.sqrt 2 : ℂ)) • (destroy d - (destroy d).conjTranspose)

/-- The matrix cosine (`qutip.Qobj.cosm`): the power-series matrix
function `∑ (-1)^k A^(2k) / (2k)!`, written entrywise (the series
converges entrywise for every matrix; this is the matrix function, not
the element-wise cosine of the entries). -/
noncomputable def cosm {d : ℕ} (A : Matrix (Fin d) (Fin d) ℂ) :
    Matrix (Fin d) (Fin d) ℂ :=
  Matrix.of fun i j =>
    tsum fun k : ℕ => (-1) ^ k * (A ^ (2 * k)) i j / ((2 * k).factorial : ℂ)

namespace Fluxonium

/-- The dimension of the LC (harmonic-oscillator) basis, `nlev_lc` as a
natural number. -/
def dim (f : Fluxonium) : ℕ := f.nlev_lc.toNat

/-- `_phi_lc`: the flux operator
`(8 E_C / E_L)^0.25 * qutip.position(nlev_lc)`. -/
noncomputable def phi_lc (f : Fluxonium) : Matrix (Fin f.dim) (Fin f.dim) ℂ :=
  (((8 * f.E_C / f.E_L) ^ (0.25 : ℝ) : ℝ) : ℂ) • position f.dim

/-- `_n_lc`: the charge operator
`(E_L / (8 E_C))^0.25 * qutip.momentum(nlev_lc)`. -/
noncomputable def n_lc (f : Fluxonium) : Matrix (Fin f.dim) (Fin f.dim) ℂ :=
  (((f.E_L / (8 * f.E_C)) ^ (0.25 : ℝ) : ℝ) : ℂ) • momentum f.dim

/-- `_hamiltonian_lc`: `4 E_C n² + 0.5 E_L φ² - E_J (φ - phi_ext).cosm()`,
where the qutip subtraction of the scalar `phi_ext` from the operator
`φ` subtracts `phi_ext` times the identity. -/
noncomputable def hamiltonian_lc (f : Fluxonium) :
    Matrix (Fin f.dim) (Fin f.dim) ℂ :=
  (4 * f.E_C : ℂ) • f.n_lc ^ 2 + (0.5 * f.E_L : ℂ) • f.phi_lc ^ 2
    - (f.E_J : ℂ) • cosm (f.phi_lc - (f.phi_ext : ℂ) • 1)

end Fluxonium

/-- The Hamiltonian exactly as claim C1 words it:
`4 E_C n² + 0.5 E_L φ² - E_J cos(φ - phi_ext I)` with
`φ = (8 E_C / E_L)^(1/4)` times the position operator of dimension
`nlev_lc`, `n = (E_L / (8 E_C))^(1/4)` times the momentum operator, and
`cos` the matrix cosine. -/
noncomputable def hamiltonianClaimC1 (f : Fluxonium) :
    Matrix (Fin f.dim) (Fin f.dim) ℂ :=
  (4 * f.E_C : ℂ) •
      ((((f.E_L / (8 * f.E_C)) ^ ((1 : ℝ)/4) : ℝ) : ℂ) • momentum f.dim) ^ 2
    + (0.5 * f.E_L : ℂ) •
      ((((8 * f.E_C / f.E_L) ^ ((1 : ℝ)/4) : ℝ) : ℂ) • position f.dim) ^ 2
    - (f.E_J : ℂ) •
      cosm ((((8 * f.E_C / f.E_L) ^ ((1 : ℝ)/4) : ℝ) : ℂ) • position f.dim
        - (f.phi_ext : ℂ) • 1)

/-- The external dense Hermitian eigensolver (`qutip`/`numpy` library
code, not part of this repository): `eigenenergies` models
`Qobj.eigenenergies()` and `eigenstates` models `Qobj.eigenstates()`
(which returns the eigenvalues together with the eigenvectors). -/
structure Solver where
  eigenenergies : (d : ℕ) → Matrix (Fin d) (Fin d) ℂ → List ℝ
  eigenstates : (d : ℕ) → Matrix (Fin d) (Fin d) ℂ → List ℝ × List (ℕ → ℂ)

namespace Fluxonium

/-- The eigenvalues the solver produces for the current Hamiltonian. -/
noncomputable def evalsOf (f : Fluxonium) (S : Solver) : List ℝ :=
  S.eigenenergies f.dim f.hamiltonian_lc

/-- The eigenvalue/eigenvector pair the solver produces for the
current Hamiltonian. -/
noncomputable def statesOf (f : Fluxonium) (S : Solver) :
    List ℝ × List (ℕ → ℂ) :=
  S.eigenstates f.dim f.hamiltonian_lc

/-- `_eigenspectrum_lc(eigvecs_flag)`: with `eigvecs_flag = False`,
return the cached eigenvalues if present, else diagonalize, cache the
eigenvalues and return them; with `eigvecs_flag = True`, if either
cache attribute is `None` recompute both and overwrite the cache, then
return the pair.  The result is paired with the post-call object. -/
noncomputable def eigenspectrum_lc (f : Fluxonium) (S : Solver) :
    Bool → (List ℝ × Option (List (ℕ → ℂ))) × Fluxonium
  | false =>
    match f.eigvals with
    | some vs => ((vs, none), f)
    | none => ((f.evalsOf S, none), { f with eigvals := some (f.evalsOf S) })
  | true =>
    match f.eigvals, f.eigvecs with
    | some vs, some ws => ((vs, some ws), f)
    | some _, none =>
        (((f.statesOf S).1, some (f.statesOf S).2),
          { f with eigvals := some (f.statesOf S).1,
                   eigvecs := some (f.statesOf S).2 })
    | none, _ =>
        (((f.statesOf S).1, some (f.statesOf S).2),
          { f with eigvals := some (f.statesOf S).1,
                   eigvecs := some (f.statesOf S).2 })

/-- `levels(nlev)`: `nlev` defaults to `self.nlev`; out of
`1 ≤ nlev ≤ nlev_lc` raises, otherwise the first `nlev` computed
eigenvalues are returned (`[0:nlev]` slice). -/
noncomputable def levels (f : Fluxonium) (S : Solver) (nlev? : Option ℤ) :
    Except Err (List ℝ) × Fluxonium :=
  let n := nlev?.getD f.nlev
  if n < 1 ∨ n > f.nlev_lc then (.error .outOfBounds, f)
  else
    let r := f.eigenspectrum_lc S false
    (.ok (r.1.1.take n.toNat), r.2)

/-- `level(level_ind)`: bounds-checked by `0 ≤ level_ind < nlev_lc`,
then the `level_ind`-th computed eigenvalue; indexing past the end of
the eigenvalue array would be a Python `IndexError`. -/
noncomputable def level (f : Fluxonium) (S : Solver) (level_ind : ℤ) :
    Except Err ℝ × Fluxonium :=
  if level_ind < 0 ∨ level_ind ≥ f.nlev_lc then (.error .outOfBounds, f)
  else
    let r := f.eigenspectrum_lc S false
    match r.1.1[level_ind.toNat]? with
    | some e => (.ok e, r.2)
    | none => (.error .indexError, r.2)

/-- `freq(level1, level2) = self.level(level2) - self.level(level1)`,
evaluating `level(level2)` first (Python evaluation order). -/
noncomputable def freq (f : Fluxonium) (S : Solver) (level1 level2 : ℤ) :
    Except Err ℝ × Fluxonium :=
  let r2 := f.level S level2
  match r2.1 with
  | .error e => (.error e, r2.2)
  | .ok e2 =>
    let r1 := r2.2.level S level1
    match r1.1 with
    | .error e => (.error e, r1.2)
    | .ok e1 => (.ok (e2 - e1), r1.2)

/-- The documented contract of the library eigensolver on the current
Hamiltonian: one eigenvalue per basis state, ascending order, the
eigenvalues returned by `eigenstates` agreeing with `eigenenergies`,
and one eigenvector per eigenvalue. -/
def SolverOK (f : Fluxonium) (S : Solver) : Prop :=
  (f.evalsOf S).length = f.dim ∧
  (f.evalsOf S).Sorted (· ≤ ·) ∧
  (f.statesOf S).1 = f.evalsOf S ∧
  (f.statesOf S).2.length = f.dim

/-- Cache consistency: whatever the cache holds was computed from the
current Hamiltonian (which is how the source maintains it: every
parameter mutation clears the cache). -/
def CacheOK (f : Fluxonium) (S : Solver) : Prop :=
  (∀ vs, f.eigvals = some vs → vs = f.evalsOf S) ∧
  (∀ ws, f.eigvecs = some ws → ws = (f.statesOf S).2)

end Fluxonium

open Fluxonium

/-- A solver instance used to discharge the contract hypotheses at
concrete inputs: it reports `c, c+1, c+2, ...` as eigenvalues (strictly
ascending) and zero eigenvectors. -/
noncomputable def trivSolver (c : ℝ) : Solver where
  eigenenergies := fun d _ => (List.range d).map fun k : ℕ => c + (k : ℝ)
  eigenstates := fun d _ =>
    ((List.range d).map fun k : ℕ => c + (k : ℝ),
     (List.range d).map fun _ : ℕ => fun _ : ℕ => (0 : ℂ))

/-- A sample device used to instantiate hypotheses at concrete inputs:
`E_L = 1, E_C = 1, E_J = 2, phi_ext = π, nlev = 5, nlev_lc = 20`,
freshly constructed (empty cache). -/
noncomputable def sampleDev : Fluxonium :=
  { E_L := 1, E_C := 1, E_J := 2, phi_ext := Real.pi,
    nlev := 5, nlev_lc := 20, units := "GHz",
    eigvals := none, eigvecs := none }

/-- The argument passed for the flux variable `phi_points`: a numeric
scalar (Python `float` or `int`), a numeric array (`numpy.ndarray`), or
a value of any other type (rejected by the `isinstance` checks in
`potential`/`wavefunc`). -/
inductive PhiArg where
  | scalar (x : ℝ)
  | array (xs : List ℝ)
  | invalid

/-- `numpy.linspace(a, b, n)`: `n` evenly spaced points
`a + i (b - a)/(n - 1)` for `i = 0, …, n-1`. -/
noncomputable def linspace (a b : ℝ) (n : ℕ) : List ℝ :=
  (List.range n).map fun i : ℕ => a + i * ((b - a) / ((n : ℝ) - 1))

/-- The value `potential`/`wavefunc` returns: the `(points, values)`
pair when the flux variable was defaulted, otherwise the value(s)
shaped like the input. -/
inductive RealValued where
  | pair (pts vals : List ℝ)
  | scalar (v : ℝ)
  | array (vs : List ℝ)

/-- Whether the flux-variable argument was supplied and fails the
`isinstance(ndarray) or isinstance(float) or isinstance(int)` check. -/
def argInvalid : Option PhiArg → Bool
  | some .invalid => true
  | _ => false

/-- Shape of the value returned by `potential`/`wavefunc` for the
function `w` of the flux variable: `(points, w(points))` when the
argument was defaulted, `w` applied pointwise otherwise.  (The
`.invalid` branch is unreachable: both callers reject that argument
before shaping a result.) -/
noncomputable def shapeResult (arg : Option PhiArg) (w : ℝ → ℝ) : RealValued :=
  match arg with
  | none => .pair (linspace (-Real.pi) Real.pi 201)
      ((linspace (-Real.pi) Real.pi 201).map w)
  | some (.scalar x) => .scalar (w x)
  | some (.array xs) => .array (xs.map w)
  | some .invalid => .array []

namespace Fluxonium

/-- The integrand of `potential`:
`V(φ) = 0.5 E_L φ² - E_J cos(φ - phi_ext)` at one point (`numpy`
applies it elementwise). -/
noncomputable def Vpot (f : Fluxonium) (x : ℝ) : ℝ :=
  0.5 * f.E_L * x ^ 2 - f.E_J * Real.cos (x - f.phi_ext)

/-- `potential(phi_points=None)`: with no argument, 201 points evenly
spaced over `[-π, π]` paired with the potential there; with a scalar
or array argument, the elementwise potential only; any other argument
type raises. -/
noncomputable def potential (f : Fluxonium) (arg : Option PhiArg) :
    Except Err RealValued :=
  if argInvalid arg then .error .invalidInput
  else .ok (shapeResult arg f.Vpot)

end Fluxonium

/-- `qutip.Qobj.matrix_element(bra, ket)`: `⟨v| A |w⟩`, with the bra
conjugated. -/
noncomputable def matrixElement {d : ℕ} (A : Matrix (Fin d) (Fin d) ℂ)
    (v w : ℕ → ℂ) : ℂ :=
  ∑ p : Fin d, ∑ q : Fin d, (starRingEnd ℂ) (v (p : ℕ)) * (A p q * w (q : ℕ))

/-- Physicists Hermite polynomials via the recurrence
`H_{n+1}(x) = 2x H_n(x) - 2n H_{n-1}(x)`
(`scipy.special.eval_hermite`). -/
noncomputable def hermiteH : ℕ → ℝ → ℝ
  | 0, _ => 1
  | 1, x => 2 * x
  | n + 2, x => 2 * x * hermiteH (n + 1) x - 2 * (n + 1) * hermiteH n x

namespace Fluxonium

/-- The nested helper `ho_wf(phi, l, E_C, E_L)` of `wavefunc`: the
`l`-th harmonic-oscillator basis function
`(2^l l! √π r)^(-1/2) exp(-φ²/(2r²)) H_l(φ/r)` with
`r = (8 E_C/E_L)^0.25`. -/
noncomputable def ho_wf (f : Fluxonium) (x : ℝ) (l : ℕ) : ℝ :=
  let r0 := (8.0 * f.E_C / f.E_L) ^ (0.25 : ℝ)
  (2.0 ^ l * (l.factorial : ℝ) * Real.sqrt Real.pi * r0) ^ (-(0.5) : ℝ)
    * Real.exp (-(0.5) * (x / r0) ^ 2) * hermiteH l (x / r0)

/-- `phi_ij(level1, level2)`: bounds-checked with the inclusive upper
bound `nlev_lc`; then the spectrum (with eigenvectors) is obtained and
the flux matrix element between eigenvectors `level1` and `level2` is
returned — indexing the length-`nlev_lc` eigenvector sequence past its
end is a Python `IndexError`. -/
noncomputable def phi_ij (f : Fluxonium) (S : Solver) (level1 level2 : ℤ) :
    Except Err ℂ × Fluxonium :=
  if level1 < 0 ∨ level1 > f.nlev_lc ∨ level2 < 0 ∨ level2 > f.nlev_lc then
    (.error .outOfBounds, f)
  else
    let r := f.eigenspectrum_lc S true
    let ws := r.1.2.getD []
    match ws[level1.toNat]? with
    | none => (.error .indexError, r.2)
    | some v1 =>
      match ws[level2.toNat]? with
      | none => (.error .indexError, r.2)
      | some v2 => (.ok (matrixElement r.2.phi_lc v1 v2), r.2)

/-- `n_ij(level1, level2)`: identical to `phi_ij` with the charge
operator in place of the flux operator. -/
noncomputable def n_ij (f : Fluxonium) (S : Solver) (level1 level2 : ℤ) :
    Except Err ℂ × Fluxonium :=
  if level1 < 0 ∨ level1 > f.nlev_lc ∨ level2 < 0 ∨ level2 > f.nlev_lc then
    (.error .outOfBounds, f)
  else
    let r := f.eigenspectrum_lc S true
    let ws := r.1.2.getD []
    match ws[level1.toNat]? with
    | none => (.error .indexError, r.2)
    | some v1 =>
      match ws[level2.toNat]? with
      | none => (.error .indexError, r.2)
      | some v2 => (.ok (matrixElement r.2.n_lc v1 v2), r.2)

/-- `wavefunc(level_ind, phi_points=None)`: bounds check with the
inclusive upper bound `nlev_lc` first, then the default/type check on
the flux variable, then the spectrum with eigenvectors; the summation
loop `for lvl_idx in range(nlev_lc)` accumulates
`Re(evecs[level_ind][lvl_idx]) * ho_wf(phi, lvl_idx)`, so the first
iteration indexes the eigenvector sequence (a Python `IndexError` when
`level_ind` is past its end); when `nlev_lc` is zero — unreachable
through the validated constructor — the loop body never runs and the
zero function is shaped instead. -/
noncomputable def wavefunc (f : Fluxonium) (S : Solver) (level_ind : ℤ)
    (arg : Option PhiArg) : Except Err RealValued × Fluxonium :=
  if level_ind < 0 ∨ level_ind > f.nlev_lc then (.error .outOfBounds, f)
  else if argInvalid arg then (.error .invalidInput, f)
  else
    let r := f.eigenspectrum_lc S true
    let ws := r.1.2.getD []
    if f.nlev_lc.toNat = 0 then (.ok (shapeResult arg fun _ => 0), r.2)
    else
      match ws[level_ind.toNat]? with
      | none => (.error .indexError, r.2)
      | some v =>
        (.ok (shapeResult arg fun x =>
          ∑ k ∈ Finset.range f.nlev_lc.toNat, (v k).re * f.ho_wf x k), r.2)

end Fluxonium

/-- The doubly degenerate eigenvalue of the 2×2 LC Hamiltonian of
`degenDev`: `1/2 + cos(1/√2)`. -/
noncomputable def degenVal : ℝ := 1 / 2 + Real.cos ((Real.sqrt 2)⁻¹)

/-- A device whose truncated LC Hamiltonian is exactly a scalar
multiple of the identity, hence has a doubly degenerate spectrum:
`E_L = 1, E_C = 1/8, E_J = 1, phi_ext = π (the default), nlev_lc = 2`.
All parameters are valid (positive where required). -/
noncomputable def degenDev : Fluxonium :=
  { E_L := 1, E_C := 1 / 8, E_J := 1, phi_ext := Real.pi,
    nlev := 5, nlev_lc := 2, units := "GHz",
    eigvals := none, eigvecs := none }

/-- The eigensolver output for `degenDev`: since its Hamiltonian is
`degenVal • 1` (proved below), any correct solver reports the
eigenvalue `degenVal` twice; this instance does, in ascending (here:
constant) order, satisfying the documented solver contract. -/
noncomputable def degenSolver : Solver where
  eigenenergies := fun d _ => List.replicate d degenVal
  eigenstates := fun d _ =>
    (List.replicate d degenVal, List.replicate d fun _ : ℕ => (0 : ℂ))

/-- The Hadamard involution diagonalizing the position operator in
dimension 2. -/
noncomputable def Umat : Matrix (Fin 2) (Fin 2) ℂ :=
  ((Real.sqrt 2 : ℂ))⁻¹ • !![1, 1; 1, -1]

/-- The eigenvalues of `φ - π·I` for `degenDev`:
`±(1/√2) - π`. -/
noncomputable def dvec : Fin 2 → ℂ :=
  ![(((Real.sqrt 2)⁻¹ : ℝ) : ℂ) - (Real.pi : ℝ),
    (-((Real.sqrt 2)⁻¹ : ℝ) : ℝ) - (Real.pi : ℝ)]

/-- C2: every successful mutation through one of the five setters
`E_L`, `E_C`, `E_J`, `phi_ext`, `nlev_lc` leaves both cached
eigenvalues and cached eigenvectors absent (`None`), unconditionally in
the assigned value (in particular also when it equals the current
one). -/
theorem claim_C2_setters_clear_cache (f : Fluxonium) :
    (∀ v : ℝ, (f.setE_L v).1 = .ok () →
      (f.setE_L v).2.eigvals = none ∧ (f.setE_L v).2.eigvecs = none) ∧
    (∀ v : ℝ, (f.setE_C v).1 = .ok () →
      (f.setE_C v).2.eigvals = none ∧ (f.setE_C v).2.eigvecs = none) ∧
    (∀ v : ℝ, (f.setE_J v).1 = .ok () →
      (f.setE_J v).2.eigvals = none ∧ (f.setE_J v).2.eigvecs = none) ∧
    (∀ v : ℝ, (f.setPhi_ext v).1 = .ok () →
      (f.setPhi_ext v).2.eigvals = none ∧ (f.setPhi_ext v).2.eigvecs = none) ∧
    (∀ v : ℤ, (f.setNlev_lc v).1 = .ok () →
      (f.setNlev_lc v).2.eigvals = none ∧ (f.setNlev_lc v).2.eigvecs = none) := by
  refine ⟨fun v hv => ?_, fun v hv => ?_, fun v hv => ?_, fun v hv => ?_,
    fun v hv => ?_⟩
  · by_cases h : v ≤ 0
    · simp [setE_L, h] at hv
    · simp [setE_L, h, resetCache]
  · by_cases h : v ≤ 0
    · simp [setE_C, h] at hv
    · simp [setE_C, h, resetCache]
  · simp [setE_J, resetCache]
  · simp [setPhi_ext, resetCache]
  · by_cases h : v ≤ 0
    · simp [setNlev_lc, h] at hv
    · simp [setNlev_lc, h, resetCache]

/-- Witness for C2 at a concrete device, exercising in particular a
mutation that re-assigns the current value of the parameter
(`setE_L sampleDev 1` with `sampleDev.E_L = 1`). -/
theorem claim_C2_setters_clear_cache_witness :
    ((sampleDev.setE_L 1).2.eigvals = none ∧
      (sampleDev.setE_L 1).2.eigvecs = none) ∧
    ((sampleDev.setNlev_lc 7).2.eigvals = none ∧
      (sampleDev.setNlev_lc 7).2.eigvecs = none) := by
  refine ⟨(claim_C2_setters_clear_cache sampleDev).1 1 ?_,
    (claim_C2_setters_clear_cache sampleDev).2.2.2.2 7 ?_⟩ <;>
    · simp only [setE_L, setNlev_lc, resetCache]
      norm_num

/-- C3: the `E_L`, `E_C` and `nlev_lc` setters fail with
`invalidParameter` exactly on non-positive values, returning the device
completely unchanged (parameter and caches untouched); on every
positive value the assignment succeeds (storing the value and resetting
the cache).  The constructor fails with `invalidParameter` whenever one
of `E_L`, `E_C`, `nlev_lc` is non-positive and succeeds whenever all
three are positive. -/
theorem claim_C3_parameter_validation (f : Fluxonium) (v : ℝ) (m : ℤ)
    (e_l e_c e_j pext : ℝ) (nl nllc : ℤ) (u : String) :
    (v ≤ 0 → f.setE_L v = (.error .invalidParameter, f)) ∧
    (0 < v → f.setE_L v =
      (.ok (), { f with E_L := v, eigvals := none, eigvecs := none })) ∧
    (v ≤ 0 → f.setE_C v = (.error .invalidParameter, f)) ∧
    (0 < v → f.setE_C v =
      (.ok (), { f with E_C := v, eigvals := none, eigvecs := none })) ∧
    (m ≤ 0 → f.setNlev_lc m = (.error .invalidParameter, f)) ∧
    (0 < m → f.setNlev_lc m =
      (.ok (), { f with nlev_lc := m, eigvals := none, eigvecs := none })) ∧
    (e_l ≤ 0 ∨ e_c ≤ 0 ∨ nllc ≤ 0 →
      init e_l e_c e_j pext nl nllc u = .error .invalidParameter) ∧
    (0 < e_l → 0 < e_c → 0 < nllc →
      init e_l e_c e_j pext nl nllc u =
        .ok { E_L := e_l, E_C := e_c, E_J := e_j, phi_ext := pext,
              nlev := nl, nlev_lc := nllc, units := u,
              eigvals := none, eigvecs := none }) := by
  refine ⟨fun h => ?_, fun h => ?_, fun h => ?_, fun h => ?_, fun h => ?_,
    fun h => ?_, fun h => ?_, fun h1 h2 h3 => ?_⟩
  · simp [setE_L, h]
  · simp [setE_L, not_le.mpr h, resetCache]
  · simp [setE_C, h]
  · simp [setE_C, not_le.mpr h, resetCache]
  · simp [setNlev_lc, h]
  · simp [setNlev_lc, not_le.mpr h, resetCache]
  · rcases h with h | h | h
    · simp [init, h]
    · simp only [init]
      split
      · rfl
      · simp [h]
    · simp only [init]
      split
      · rfl
      · split
        · rfl
        · simp [h]
  · simp [init, not_le.mpr h1, not_le.mpr h2, not_le.mpr h3]

/-- Witness for C3 at concrete inputs: `E_L := -1` is rejected leaving
the device unchanged, `E_L := 2` succeeds, `nlev_lc := 0` is rejected,
and the constructor rejects `E_C = 0` but succeeds on the sample
parameters. -/
theorem claim_C3_parameter_validation_witness :
    (sampleDev.setE_L (-1) = (.error .invalidParameter, sampleDev)) ∧
    (sampleDev.setE_L 2 =
      (.ok (), { sampleDev with E_L := 2, eigvals := none, eigvecs := none })) ∧
    (sampleDev.setNlev_lc 0 = (.error .invalidParameter, sampleDev)) ∧
    (init 1 0 2 0 5 20 "GHz" = .error .invalidParameter) ∧
    (init 1 1 2 0 5 20 "GHz" =
      .ok { E_L := 1, E_C := 1, E_J := 2, phi_ext := 0,
            nlev := 5, nlev_lc := 20, units := "GHz",
            eigvals := none, eigvecs := none }) := by
  have h := claim_C3_parameter_validation sampleDev (-1) 0 1 0 2 0 5 20 "GHz"
  have h2 := claim_C3_parameter_validation sampleDev 2 1 1 1 2 0 5 20 "GHz"
  exact ⟨h.1 (by norm_num), h2.2.1 (by norm_num), h.2.2.2.2.1 le_rfl,
    h.2.2.2.2.2.2.1 (Or.inr (Or.inl le_rfl)),
    h2.2.2.2.2.2.2.2 one_pos one_pos (by norm_num)⟩

/-- C1: for every device with valid parameters the assembled LC-basis
Hamiltonian equals `4 E_C n² + 0.5 E_L φ² - E_J cos(φ - phi_ext I)`
with `φ = (8 E_C/E_L)^(1/4)` times the position operator of dimension
`nlev_lc`, `n = (E_L/(8 E_C))^(1/4)` times the momentum operator, `I`
the identity, and `cos` the matrix cosine. -/
theorem claim_C1_hamiltonian_assembly (f : Fluxonium)
    (hL : 0 < f.E_L) (hC : 0 < f.E_C) (hn : 1 ≤ f.nlev_lc) :
    f.hamiltonian_lc = hamiltonianClaimC1 f := by
  have h : (0.25 : ℝ) = (1 : ℝ)/4 := by norm_num
  simp only [hamiltonian_lc, hamiltonianClaimC1, phi_lc, n_lc, h]

/-- Witness for C1 at the sample device. -/
theorem claim_C1_hamiltonian_assembly_witness :
    sampleDev.hamiltonian_lc = hamiltonianClaimC1 sampleDev :=
  claim_C1_hamiltonian_assembly sampleDev (by norm_num [sampleDev])
    (by norm_num [sampleDev]) (by norm_num [sampleDev])

lemma solverOK_triv (c : ℝ) (f : Fluxonium) : f.SolverOK (trivSolver c) := by
  refine ⟨?_, ?_, rfl, ?_⟩
  · show ((List.range f.dim).map fun k : ℕ => c + (k : ℝ)).length = f.dim
    simp
  · show List.Sorted (· ≤ ·) ((List.range f.dim).map fun k : ℕ => c + (k : ℝ))
    refine List.Pairwise.map _ (fun a b h => ?_) (List.pairwise_le_range _)
    exact add_le_add_left (Nat.cast_le.mpr h) c
  · show ((List.range f.dim).map fun _ : ℕ => fun _ : ℕ => (0 : ℂ)).length = f.dim
    simp

lemma cacheOK_none (f : Fluxonium) (S : Solver)
    (h1 : f.eigvals = none) (h2 : f.eigvecs = none) : f.CacheOK S := by
  refine ⟨fun vs h => ?_, fun ws h => ?_⟩
  · rw [h1] at h; cases h
  · rw [h2] at h; cases h

lemma cacheOK_update (f : Fluxonium) (S : Solver) (hC : f.CacheOK S) :
    Fluxonium.CacheOK { f with eigvals := some (f.evalsOf S) } S := by
  refine ⟨fun vs h => ?_, fun ws h => ?_⟩
  · simp only at h
    cases h
    rfl
  · exact hC.2 ws h

lemma evalsOf_update (f : Fluxonium) (S : Solver) (x : Option (List ℝ)) :
    Fluxonium.evalsOf { f with eigvals := x } S = f.evalsOf S := rfl

lemma statesOf_update (f : Fluxonium) (S : Solver) (x : Option (List ℝ)) :
    Fluxonium.statesOf { f with eigvals := x } S = f.statesOf S := rfl

lemma eigenspectrum_false_eq (f : Fluxonium) (S : Solver) (hC : f.CacheOK S) :
    f.eigenspectrum_lc S false =
      ((f.evalsOf S, none), { f with eigvals := some (f.evalsOf S) }) := by
  obtain ⟨h1, -⟩ := hC
  obtain ⟨eL, eC, eJ, pe, nl, nlc, u, ev, ew⟩ := f
  cases ev with
  | none => rfl
  | some vs =>
    have hvs := h1 vs rfl
    simp only [eigenspectrum_lc]
    rw [← hvs]

lemma eigenspectrum_true_eq (f : Fluxonium) (S : Solver)
    (hS : f.SolverOK S) (hC : f.CacheOK S) :
    f.eigenspectrum_lc S true =
      (((f.statesOf S).1, some (f.statesOf S).2),
        { f with eigvals := some (f.statesOf S).1,
                 eigvecs := some (f.statesOf S).2 }) := by
  obtain ⟨h1, h2⟩ := hC
  have hse := hS.2.2.1
  obtain ⟨eL, eC, eJ, pe, nl, nlc, u, ev, ew⟩ := f
  cases ev with
  | none => cases ew <;> rfl
  | some vs =>
    cases ew with
    | none => rfl
    | some ws =>
      have hvs := h1 vs rfl
      have hws := h2 ws rfl
      simp only [eigenspectrum_lc]
      rw [hse, ← hvs, ← hws]

lemma levels_eq (f : Fluxonium) (S : Solver) (hC : f.CacheOK S) (nlev? : Option ℤ)
    (h1 : 1 ≤ nlev?.getD f.nlev) (h2 : nlev?.getD f.nlev ≤ f.nlev_lc) :
    f.levels S nlev? =
      (.ok ((f.evalsOf S).take (nlev?.getD f.nlev).toNat),
        { f with eigvals := some (f.evalsOf S) }) := by
  have hb : ¬(nlev?.getD f.nlev < 1 ∨ nlev?.getD f.nlev > f.nlev_lc) := by omega
  simp only [levels, if_neg hb, eigenspectrum_false_eq f S hC]

lemma level_eq (f : Fluxonium) (S : Solver) (hS : f.SolverOK S) (hC : f.CacheOK S)
    (i : ℤ) (h0 : 0 ≤ i) (h1 : i < f.nlev_lc) :
    f.level S i =
      (.ok ((f.evalsOf S).getD i.toNat 0),
        { f with eigvals := some (f.evalsOf S) }) := by
  have hb : ¬(i < 0 ∨ i ≥ f.nlev_lc) := by omega
  have hlen : i.toNat < (f.evalsOf S).length := by
    rw [hS.1]; unfold Fluxonium.dim; omega
  simp only [level, if_neg hb, eigenspectrum_false_eq f S hC,
    List.getElem?_eq_getElem hlen, List.getD_eq_getElem _ _ hlen]

/-- C4: the eigenspectrum accessor's cache policy: with cached
eigenvalues present and only eigenvalues requested it returns the cache
with the object unchanged (no recomputation); with eigenvectors
requested and either cache attribute absent it recomputes both from the
Hamiltonian and overwrites the cache; consequently `levels` called
twice in succession with no intervening mutation returns identical
results, the second call leaving the object untouched (cache hit). -/
theorem claim_C4_cache_policy (S : Solver) (f : Fluxonium) :
    (∀ vs, f.eigvals = some vs → f.eigenspectrum_lc S false = ((vs, none), f)) ∧
    (f.eigvals = none ∨ f.eigvecs = none →
      f.eigenspectrum_lc S true =
        (((f.statesOf S).1, some (f.statesOf S).2),
          { f with eigvals := some (f.statesOf S).1,
                   eigvecs := some (f.statesOf S).2 })) ∧
    (∀ nlev? r f1, f.levels S nlev? = (.ok r, f1) →
      f1.levels S nlev? = (.ok r, f1)) := by
  obtain ⟨eL, eC, eJ, pe, nl, nlc, u, ev, ew⟩ := f
  refine ⟨fun vs h => ?_, fun h => ?_, fun nlev? r f1 hcall => ?_⟩
  · simp only at h
    subst h
    rfl
  · rcases h with h | h <;> simp only at h <;> subst h
    · rfl
    · cases ev <;> rfl
  · by_cases hb :
      nlev?.getD nl < 1 ∨
        nlev?.getD nl > (Fluxonium.mk eL eC eJ pe nl nlc u ev ew).nlev_lc
    · simp only [levels, if_pos hb] at hcall
      cases hcall
    · cases ev with
      | some vs =>
        simp only [levels, if_neg hb, eigenspectrum_lc] at hcall ⊢
        obtain ⟨h1, h2⟩ := Prod.mk.injEq .. ▸ hcall
        subst h2
        simp only [levels, if_neg hb, eigenspectrum_lc]
        exact Prod.ext h1 rfl
      | none =>
        simp only [levels, if_neg hb, eigenspectrum_lc] at hcall
        obtain ⟨h1, h2⟩ := Prod.mk.injEq .. ▸ hcall
        subst h2
        simp only [levels, if_neg hb, eigenspectrum_lc]
        exact Prod.ext h1 rfl

/-- Witness for C4: a cache hit on a device holding eigenvalues, a
recomputation on the freshly constructed sample device, and the second
of two successive `levels(5)` calls served from cache. -/
theorem claim_C4_cache_policy_witness :
    ((Fluxonium.mk 1 1 2 0 5 20 "GHz" (some [1, 2]) none).eigenspectrum_lc
        (trivSolver 0) false
      = (([1, 2], none), Fluxonium.mk 1 1 2 0 5 20 "GHz" (some [1, 2]) none)) ∧
    (sampleDev.eigenspectrum_lc (trivSolver 0) true =
      (((sampleDev.statesOf (trivSolver 0)).1,
          some ((sampleDev.statesOf (trivSolver 0)).2)),
        { sampleDev with
            eigvals := some ((sampleDev.statesOf (trivSolver 0)).1),
            eigvecs := some ((sampleDev.statesOf (trivSolver 0)).2) })) ∧
    ({ sampleDev with
        eigvals := some (sampleDev.evalsOf (trivSolver 0)) }.levels
          (trivSolver 0) (some 5) =
      (.ok ((sampleDev.evalsOf (trivSolver 0)).take ((5 : ℤ)).toNat),
        { sampleDev with
            eigvals := some (sampleDev.evalsOf (trivSolver 0)) })) := by
  refine ⟨(claim_C4_cache_policy (trivSolver 0) _).1 [1, 2] rfl,
    (claim_C4_cache_policy (trivSolver 0) sampleDev).2.1 (Or.inl rfl),
    (claim_C4_cache_policy (trivSolver 0) sampleDev).2.2 (some 5) _ _ ?_⟩
  exact levels_eq sampleDev (trivSolver 0)
    (cacheOK_none sampleDev (trivSolver 0) rfl rfl) (some 5)
    (by norm_num) (by norm_num [sampleDev])

/-- C5: for `1 ≤ n ≤ nlev_lc`, `levels(n)` succeeds with the first `n`
eigenvalues in non-decreasing order, and the result is a prefix of
`levels(n+1)` whenever `n+1 ≤ nlev_lc`; for `n < 1` or `n > nlev_lc`
(in particular `n = 0` and `n = nlev_lc + 1`) it fails with
`outOfBounds`, while `n = nlev_lc` falls in the success case. -/
theorem claim_C5_levels_bounds (S : Solver) (f : Fluxonium) (n : ℤ)
    (hS : f.SolverOK S) (hC : f.CacheOK S) :
    (1 ≤ n → n ≤ f.nlev_lc →
      (f.levels S (some n)).1 = .ok ((f.evalsOf S).take n.toNat) ∧
      ((f.evalsOf S).take n.toNat).length = n.toNat ∧
      List.Sorted (· ≤ ·) ((f.evalsOf S).take n.toNat) ∧
      (n + 1 ≤ f.nlev_lc →
        (f.levels S (some (n + 1))).1 = .ok ((f.evalsOf S).take (n + 1).toNat) ∧
        ∃ t, (f.evalsOf S).take n.toNat ++ t = (f.evalsOf S).take (n + 1).toNat)) ∧
    (n < 1 ∨ n > f.nlev_lc → (f.levels S (some n)).1 = .error .outOfBounds) := by
  constructor
  · intro h1 h2
    refine ⟨?_, ?_, ?_, ?_⟩
    · rw [levels_eq f S hC (some n) h1 h2]
      rfl
    · rw [List.length_take, hS.1]
      unfold Fluxonium.dim
      omega
    · exact List.Pairwise.sublist (List.take_sublist _ _) hS.2.1
    · intro h3
      refine ⟨?_, ((f.evalsOf S).take (n + 1).toNat).drop n.toNat, ?_⟩
      · rw [levels_eq f S hC (some (n + 1)) (show (1 : ℤ) ≤ n + 1 by omega) h3]
        rfl
      · have h4 := List.take_append_drop n.toNat ((f.evalsOf S).take (n + 1).toNat)
        rw [List.take_take, min_eq_left (by omega)] at h4
        exact h4
  · intro h
    simp only [levels, Option.getD_some, if_pos h]

/-- Witness for C5 on the sample device (`nlev_lc = 20`): `levels(5)`
and `levels(20)` succeed, `levels(0)` and `levels(21)` fail. -/
theorem claim_C5_levels_bounds_witness :
    (sampleDev.levels (trivSolver 0) (some 5)).1 =
      .ok ((sampleDev.evalsOf (trivSolver 0)).take ((5 : ℤ)).toNat) ∧
    (sampleDev.levels (trivSolver 0) (some 20)).1 =
      .ok ((sampleDev.evalsOf (trivSolver 0)).take ((20 : ℤ)).toNat) ∧
    (sampleDev.levels (trivSolver 0) (some 0)).1 = .error .outOfBounds ∧
    (sampleDev.levels (trivSolver 0) (some 21)).1 = .error .outOfBounds := by
  have hOK := solverOK_triv 0 sampleDev
  have hCa := cacheOK_none sampleDev (trivSolver 0) rfl rfl
  have h5 := claim_C5_levels_bounds (trivSolver 0) sampleDev 5 hOK hCa
  have h20 := claim_C5_levels_bounds (trivSolver 0) sampleDev 20 hOK hCa
  have h0 := claim_C5_levels_bounds (trivSolver 0) sampleDev 0 hOK hCa
  have h21 := claim_C5_levels_bounds (trivSolver 0) sampleDev 21 hOK hCa
  exact ⟨(h5.1 (by norm_num) (by norm_num [sampleDev])).1,
    (h20.1 (by norm_num) (by norm_num [sampleDev])).1,
    h0.2 (Or.inl (by norm_num)),
    h21.2 (Or.inr (by norm_num [sampleDev]))⟩

/-- C6: for valid level indices `0 ≤ i, j < nlev_lc`,
`freq(i, j) = level(j) - level(i)`, and hence
`freq(i, j) = -freq(j, i)`. -/
theorem claim_C6_transition_antisymmetry (S : Solver) (f : Fluxonium) (i j : ℤ)
    (hS : f.SolverOK S) (hC : f.CacheOK S)
    (hi0 : 0 ≤ i) (hi1 : i < f.nlev_lc) (hj0 : 0 ≤ j) (hj1 : j < f.nlev_lc) :
    f.level S i = (.ok ((f.evalsOf S).getD i.toNat 0),
      { f with eigvals := some (f.evalsOf S) }) ∧
    f.level S j = (.ok ((f.evalsOf S).getD j.toNat 0),
      { f with eigvals := some (f.evalsOf S) }) ∧
    f.freq S i j =
      (.ok ((f.evalsOf S).getD j.toNat 0 - (f.evalsOf S).getD i.toNat 0),
        { f with eigvals := some (f.evalsOf S) }) ∧
    f.freq S j i =
      (.ok ((f.evalsOf S).getD i.toNat 0 - (f.evalsOf S).getD j.toNat 0),
        { f with eigvals := some (f.evalsOf S) }) ∧
    (f.evalsOf S).getD j.toNat 0 - (f.evalsOf S).getD i.toNat 0
      = -((f.evalsOf S).getD i.toNat 0 - (f.evalsOf S).getD j.toNat 0) := by
  have hLi := level_eq f S hS hC i hi0 hi1
  have hLj := level_eq f S hS hC j hj0 hj1
  have hCup := cacheOK_update f S hC
  have hSup : Fluxonium.SolverOK { f with eigvals := some (f.evalsOf S) } S := hS
  have hLi2 := level_eq { f with eigvals := some (f.evalsOf S) } S hSup hCup i
    hi0 hi1
  have hLj2 := level_eq { f with eigvals := some (f.evalsOf S) } S hSup hCup j
    hj0 hj1
  refine ⟨hLi, hLj, ?_, ?_, by ring⟩
  · simp only [freq, hLj, hLi2, evalsOf_update]
  · simp only [freq, hLi, hLj2, evalsOf_update]

/-- Witness for C6 on the sample device with `i = 0`, `j = 1`. -/
theorem claim_C6_transition_antisymmetry_witness :
    sampleDev.freq (trivSolver 0) 0 1 =
      (.ok ((sampleDev.evalsOf (trivSolver 0)).getD ((1 : ℤ)).toNat 0
        - (sampleDev.evalsOf (trivSolver 0)).getD ((0 : ℤ)).toNat 0),
        { sampleDev with eigvals := some (sampleDev.evalsOf (trivSolver 0)) }) ∧
    (sampleDev.evalsOf (trivSolver 0)).getD ((1 : ℤ)).toNat 0
        - (sampleDev.evalsOf (trivSolver 0)).getD ((0 : ℤ)).toNat 0
      = -((sampleDev.evalsOf (trivSolver 0)).getD ((0 : ℤ)).toNat 0
        - (sampleDev.evalsOf (trivSolver 0)).getD ((1 : ℤ)).toNat 0) := by
  have h := claim_C6_transition_antisymmetry (trivSolver 0) sampleDev 0 1
    (solverOK_triv 0 sampleDev) (cacheOK_none sampleDev (trivSolver 0) rfl rfl)
    (by norm_num) (by norm_num [sampleDev]) (by norm_num) (by norm_num [sampleDev])
  exact ⟨h.2.2.1, h.2.2.2.2⟩

/-- C8: `potential` computes `V(x) = 0.5 E_L x² - E_J cos(x - phi_ext)`
elementwise; with no argument it returns 201 evenly spaced points over
`[-π, π]` (point `k` is `-π + k·2π/200`) paired with the 201 matching
values, where `V(0) = -E_J cos(-phi_ext)`; with a scalar or array
argument it returns only the values; any other argument type fails
with `invalidInput`. -/
theorem claim_C8_potential (f : Fluxonium) (x : ℝ) (xs : List ℝ) :
    (f.potential none =
      .ok (.pair (linspace (-Real.pi) Real.pi 201)
        ((linspace (-Real.pi) Real.pi 201).map f.Vpot))) ∧
    (linspace (-Real.pi) Real.pi 201 =
      (List.range 201).map fun k : ℕ => -Real.pi + k * (2 * Real.pi / 200)) ∧
    (linspace (-Real.pi) Real.pi 201).length = 201 ∧
    ((linspace (-Real.pi) Real.pi 201).map f.Vpot).length = 201 ∧
    (f.Vpot x = 0.5 * f.E_L * x ^ 2 - f.E_J * Real.cos (x - f.phi_ext)) ∧
    (f.Vpot 0 = -f.E_J * Real.cos (-f.phi_ext)) ∧
    (f.potential (some (.scalar x)) = .ok (.scalar (f.Vpot x))) ∧
    (f.potential (some (.array xs)) = .ok (.array (xs.map f.Vpot))) ∧
    (f.potential (some .invalid) = .error .invalidInput) := by
  refine ⟨rfl, ?_, by simp [linspace], by simp [linspace], rfl, ?_, rfl, rfl, rfl⟩
  · unfold linspace
    congr 1
    funext k
    have h200 : ((201 : ℕ) : ℝ) - 1 = 200 := by norm_num
    rw [h200]
    ring
  · unfold Fluxonium.Vpot
    rw [zero_sub]
    ring

/-- C9: `phi_ij`, `n_ij` and `wavefunc` raise `outOfBounds` exactly
when a level index is `< 0` or `> nlev_lc` — the inclusive upper bound
`nlev_lc` passes the check (in contrast to the strict-exclusive bound
of `level` and the matrix builders). -/
theorem claim_C9_inclusive_bounds (S : Solver) (f : Fluxonium) (i j : ℤ)
    (arg : Option PhiArg) :
    ((f.phi_ij S i j).1 = .error .outOfBounds ↔
      (i < 0 ∨ i > f.nlev_lc ∨ j < 0 ∨ j > f.nlev_lc)) ∧
    ((f.n_ij S i j).1 = .error .outOfBounds ↔
      (i < 0 ∨ i > f.nlev_lc ∨ j < 0 ∨ j > f.nlev_lc)) ∧
    ((f.wavefunc S i arg).1 = .error .outOfBounds ↔
      (i < 0 ∨ i > f.nlev_lc)) := by
  refine ⟨?_, ?_, ?_⟩
  · by_cases hb : i < 0 ∨ i > f.nlev_lc ∨ j < 0 ∨ j > f.nlev_lc
    · simp [phi_ij, hb]
    · refine iff_of_false (fun h => ?_) hb
      simp only [phi_ij, if_neg hb] at h
      split at h
      · simp at h
      · split at h
        · simp at h
        · simp at h
  · by_cases hb : i < 0 ∨ i > f.nlev_lc ∨ j < 0 ∨ j > f.nlev_lc
    · simp [n_ij, hb]
    · refine iff_of_false (fun h => ?_) hb
      simp only [n_ij, if_neg hb] at h
      split at h
      · simp at h
      · split at h
        · simp at h
        · simp at h
  · by_cases hb : i < 0 ∨ i > f.nlev_lc
    · simp [wavefunc, hb]
    · refine iff_of_false (fun h => ?_) hb
      simp only [wavefunc, if_neg hb] at h
      split at h
      · simp at h
      · split at h
        · simp at h
        · split at h
          · simp at h
          · simp at h

/-- C10: a level index equal to `nlev_lc` passes the inclusive
bounds check of `phi_ij`, `n_ij` and `wavefunc`, yet no such call
returns a value: the lookup of eigenvector number `nlev_lc` in the
length-`nlev_lc` eigenvector sequence is out of range, so these
operations return normally exactly for indices in `[0, nlev_lc)` and at
index `nlev_lc` fail with an indexing error distinct from
`outOfBounds`. -/
theorem claim_C10_index_error_at_top (S : Solver) (f : Fluxonium) (i j : ℤ)
    (hS : f.SolverOK S) (hC : f.CacheOK S) (hpos : 1 ≤ f.nlev_lc)
    (hi0 : 0 ≤ i) (hi1 : i < f.nlev_lc) (hj0 : 0 ≤ j) (hj1 : j < f.nlev_lc)
    (x : ℝ) :
    ((f.phi_ij S i j).1.toOption.isSome = true) ∧
    ((f.n_ij S i j).1.toOption.isSome = true) ∧
    ((f.wavefunc S i (some (.scalar x))).1.toOption.isSome = true) ∧
    ((f.phi_ij S f.nlev_lc j).1 = .error .indexError) ∧
    ((f.phi_ij S i f.nlev_lc).1 = .error .indexError) ∧
    ((f.n_ij S f.nlev_lc j).1 = .error .indexError) ∧
    ((f.n_ij S i f.nlev_lc).1 = .error .indexError) ∧
    ((f.wavefunc S f.nlev_lc (some (.scalar x))).1 = .error .indexError) ∧
    Err.indexError ≠ Err.outOfBounds := by
  have hsp := eigenspectrum_true_eq f S hS hC
  have hlen2 : (f.statesOf S).2.length = f.nlev_lc.toNat := hS.2.2.2
  have hiL : i.toNat < (f.statesOf S).2.length := by rw [hlen2]; omega
  have hjL : j.toNat < (f.statesOf S).2.length := by rw [hlen2]; omega
  have hwi := List.getElem?_eq_getElem hiL
  have hwj := List.getElem?_eq_getElem hjL
  have hwn : (f.statesOf S).2[f.nlev_lc.toNat]? = none :=
    List.getElem?_eq_none (le_of_eq hlen2)
  have hb1 : ¬(i < 0 ∨ i > f.nlev_lc ∨ j < 0 ∨ j > f.nlev_lc) := by omega
  have hb2 : ¬(f.nlev_lc < 0 ∨ f.nlev_lc > f.nlev_lc ∨ j < 0 ∨ j > f.nlev_lc) := by
    omega
  have hb3 : ¬(i < 0 ∨ i > f.nlev_lc ∨ f.nlev_lc < 0 ∨ f.nlev_lc > f.nlev_lc) := by
    omega
  have hb4 : ¬(i < 0 ∨ i > f.nlev_lc) := by omega
  have hb5 : ¬(f.nlev_lc < 0 ∨ f.nlev_lc > f.nlev_lc) := by omega
  have hz : ¬(f.nlev_lc.toNat = 0) := by omega
  refine ⟨?_, ?_, ?_, ?_, ?_, ?_, ?_, ?_, by simp⟩
  · simp only [phi_ij, if_neg hb1, hsp, Option.getD_some, hwi, hwj]
    rfl
  · simp only [n_ij, if_neg hb1, hsp, Option.getD_some, hwi, hwj]
    rfl
  · simp only [wavefunc, if_neg hb4, argInvalid, if_neg hz, hsp,
      Option.getD_some, hwi]
    rfl
  · simp only [phi_ij, if_neg hb2, hsp, Option.getD_some, hwn]
  · simp only [phi_ij, if_neg hb3, hsp, Option.getD_some, hwi, hwn]
  · simp only [n_ij, if_neg hb2, hsp, Option.getD_some, hwn]
  · simp only [n_ij, if_neg hb3, hsp, Option.getD_some, hwi, hwn]
  · simp only [wavefunc, if_neg hb5, argInvalid, if_neg hz, hsp,
      Option.getD_some, hwn]
    rfl

/-- Witness for C10 on the sample device (`nlev_lc = 20`): the
in-range call `phi_ij(0, 1)` returns a value while `phi_ij(20, 1)`,
`n_ij(0, 20)` and `wavefunc(20, 0.0)` all fail with the indexing
error. -/
theorem claim_C10_index_error_at_top_witness :
    ((sampleDev.phi_ij (trivSolver 0) 0 1).1.toOption.isSome = true) ∧
    ((sampleDev.phi_ij (trivSolver 0) sampleDev.nlev_lc 1).1 =
      .error .indexError) ∧
    ((sampleDev.n_ij (trivSolver 0) 0 sampleDev.nlev_lc).1 =
      .error .indexError) ∧
    ((sampleDev.wavefunc (trivSolver 0) sampleDev.nlev_lc
        (some (.scalar 0))).1 = .error .indexError) := by
  have h := claim_C10_index_error_at_top (trivSolver 0) sampleDev 0 1
    (solverOK_triv 0 sampleDev) (cacheOK_none sampleDev (trivSolver 0) rfl rfl)
    (by norm_num [sampleDev]) (by norm_num) (by norm_num [sampleDev])
    (by norm_num) (by norm_num [sampleDev]) 0
  exact ⟨h.1, h.2.2.2.1, h.2.2.2.2.2.2.1, h.2.2.2.2.2.2.2.1⟩

lemma destroy_two : destroy 2 = !![0, 1; 0, 0] := by
  ext i j
  fin_cases i <;> fin_cases j <;> simp [destroy]

lemma position_two : position 2 = ((Real.sqrt 2 : ℂ))⁻¹ • !![0, 1; 1, 0] := by
  rw [position, destroy_two]
  congr 1
  ext i j
  fin_cases i <;> fin_cases j <;>
    simp [Matrix.conjTranspose_apply, Matrix.add_apply]

lemma momentum_two :
    momentum 2 = (-Complex.I / (Real.sqrt 2 : ℂ)) • !![0, 1; -1, 0] := by
  rw [momentum, destroy_two]
  congr 1
  ext i j
  fin_cases i <;> fin_cases j <;>
    simp [Matrix.conjTranspose_apply, Matrix.sub_apply]

lemma sqrt_two_mul_self :
    ((Real.sqrt 2 : ℝ) : ℂ) * ((Real.sqrt 2 : ℝ) : ℂ) = 2 := by
  rw [← Complex.ofReal_mul, Real.mul_self_sqrt (by norm_num)]
  norm_num

lemma sqrt_two_ne_zero : ((Real.sqrt 2 : ℝ) : ℂ) ≠ 0 := by
  intro h
  have h2 := sqrt_two_mul_self
  rw [h, mul_zero] at h2
  exact absurd h2 (by norm_num)

lemma position_two_sq : position 2 ^ 2 = ((1 : ℂ) / 2) • 1 := by
  rw [position_two, smul_pow]
  have hx : (!![0, 1; 1, 0] : Matrix (Fin 2) (Fin 2) ℂ) ^ 2 = 1 := by
    rw [pow_two, Matrix.mul_fin_two, Matrix.one_fin_two]
    norm_num
  rw [hx]
  congr 1
  rw [inv_pow, pow_two, sqrt_two_mul_self]
  norm_num

lemma momentum_two_sq : momentum 2 ^ 2 = ((1 : ℂ) / 2) • 1 := by
  rw [momentum_two, smul_pow]
  have hx : (!![0, 1; -1, 0] : Matrix (Fin 2) (Fin 2) ℂ) ^ 2 = (-1 : ℂ) • 1 := by
    rw [pow_two, Matrix.mul_fin_two, Matrix.one_fin_two, Matrix.smul_of]
    ext i j
    fin_cases i <;> fin_cases j <;> simp
  rw [hx, smul_smul]
  congr 1
  rw [div_pow, neg_sq, Complex.I_sq, pow_two, sqrt_two_mul_self]
  norm_num

lemma Umat_mul_Umat : Umat * Umat = 1 := by
  have hA : (!![1, 1; 1, -1] : Matrix (Fin 2) (Fin 2) ℂ) * !![1, 1; 1, -1]
      = (2 : ℂ) • 1 := by
    rw [Matrix.mul_fin_two, Matrix.one_fin_two, Matrix.smul_of]
    ext i j
    fin_cases i <;> fin_cases j <;> norm_num
  rw [Umat, Matrix.smul_mul, Matrix.mul_smul, hA, smul_smul, smul_smul]
  have hs : ((Real.sqrt 2 : ℝ) : ℂ)⁻¹ * ((Real.sqrt 2 : ℝ) : ℂ)⁻¹ * 2 = 1 := by
    rw [← mul_inv, sqrt_two_mul_self]
    norm_num
  rw [hs, one_smul]

lemma M_diag :
    position 2 - ((Real.pi : ℝ) : ℂ) • 1 = Umat * Matrix.diagonal dvec * Umat := by
  have h2 := sqrt_two_mul_self
  have hne := sqrt_two_ne_zero
  have hsq : ((Real.sqrt 2 : ℝ) : ℂ) ^ 2 = 2 := by rw [pow_two, h2]
  have hcube : ((Real.sqrt 2 : ℝ) : ℂ) ^ 3 = 2 * ((Real.sqrt 2 : ℝ) : ℂ) := by
    have hh : ((Real.sqrt 2 : ℝ) : ℂ) ^ 3
        = ((Real.sqrt 2 : ℝ) : ℂ) * ((Real.sqrt 2 : ℝ) : ℂ)
          * ((Real.sqrt 2 : ℝ) : ℂ) := by ring
    rw [hh, h2]
  ext i j
  fin_cases i <;> fin_cases j <;>
    · simp only [position_two, Umat, dvec, Matrix.sub_apply, Matrix.smul_apply,
        Matrix.one_apply, Matrix.mul_apply, Matrix.diagonal, Fin.sum_univ_two,
        Matrix.of_apply, Matrix.cons_val_zero, Matrix.cons_val_one,
        Matrix.head_cons, Matrix.head_fin_const, smul_eq_mul]
      push_cast
      field_simp
      ring_nf
      simp only [hsq, hcube] <;> (push_cast; ring)

lemma sandwich_mul (A B : Matrix (Fin 2) (Fin 2) ℂ) :
    (Umat * A * Umat) * (Umat * B * Umat) = Umat * (A * B) * Umat := by
  calc (Umat * A * Umat) * (Umat * B * Umat)
      = Umat * A * ((Umat * Umat) * (B * Umat)) := by noncomm_ring
    _ = Umat * (A * B) * Umat := by rw [Umat_mul_Umat, one_mul]; noncomm_ring

lemma UDU_pow (k : ℕ) :
    (Umat * Matrix.diagonal dvec * Umat) ^ k =
      Umat * Matrix.diagonal (fun p => dvec p ^ k) * Umat := by
  induction k with
  | zero =>
    rw [pow_zero]
    have hd : (Matrix.diagonal fun p : Fin 2 => dvec p ^ 0) = 1 := by
      rw [show (fun p : Fin 2 => dvec p ^ 0) = fun _ => 1 from funext fun p => pow_zero _,
        Matrix.diagonal_one]
    rw [hd, Matrix.mul_one, Umat_mul_Umat]
  | succ n ih =>
    rw [pow_succ, ih, sandwich_mul, Matrix.diagonal_mul_diagonal,
      show (fun p : Fin 2 => dvec p ^ n * dvec p) = fun p => dvec p ^ (n + 1) from
        funext fun p => (pow_succ _ _).symm]

lemma UDU_apply (w : Fin 2 → ℂ) (i j : Fin 2) :
    (Umat * Matrix.diagonal w * Umat) i j =
      w 0 * (Umat i 0 * Umat 0 j) + w 1 * (Umat i 1 * Umat 1 j) := by
  rw [Matrix.mul_apply, Fin.sum_univ_two, Matrix.mul_diagonal, Matrix.mul_diagonal]
  ring

lemma cos_dvec_zero :
    Complex.cos (dvec 0) = ((-Real.cos ((Real.sqrt 2)⁻¹) : ℝ) : ℂ) := by
  show Complex.cos ((((Real.sqrt 2)⁻¹ : ℝ) : ℂ) - (Real.pi : ℝ)) = _
  rw [← Complex.ofReal_sub, ← Complex.ofReal_cos, Real.cos_sub_pi]

lemma cos_dvec_one :
    Complex.cos (dvec 1) = ((-Real.cos ((Real.sqrt 2)⁻¹) : ℝ) : ℂ) := by
  show Complex.cos (((-((Real.sqrt 2)⁻¹ : ℝ) : ℝ) : ℂ) - (Real.pi : ℝ)) = _
  rw [← Complex.ofReal_sub, ← Complex.ofReal_cos, Real.cos_sub_pi, Real.cos_neg]

lemma cosm_degen :
    cosm (position 2 - ((Real.pi : ℝ) : ℂ) • 1) =
      ((-Real.cos ((Real.sqrt 2)⁻¹) : ℝ) : ℂ) • 1 := by
  ext i j
  simp only [cosm, Matrix.of_apply, M_diag]
  have hterm : ∀ k : ℕ,
      (-1 : ℂ) ^ k * ((Umat * Matrix.diagonal dvec * Umat) ^ (2 * k)) i j
          / ((2 * k).factorial : ℂ)
        = ((-1) ^ k * (dvec 0) ^ (2 * k) / ((2 * k).factorial : ℂ))
            * (Umat i 0 * Umat 0 j)
          + ((-1) ^ k * (dvec 1) ^ (2 * k) / ((2 * k).factorial : ℂ))
            * (Umat i 1 * Umat 1 j) := by
    intro k
    rw [UDU_pow (2 * k), UDU_apply]
    ring
  rw [tsum_congr hterm,
    tsum_add ((Complex.hasSum_cos (dvec 0)).summable.mul_right _)
      ((Complex.hasSum_cos (dvec 1)).summable.mul_right _),
    tsum_mul_right, tsum_mul_right,
    (Complex.hasSum_cos (dvec 0)).tsum_eq, (Complex.hasSum_cos (dvec 1)).tsum_eq,
    cos_dvec_zero, cos_dvec_one]
  have hUU : Umat i 0 * Umat 0 j + Umat i 1 * Umat 1 j
      = (1 : Matrix (Fin 2) (Fin 2) ℂ) i j := by
    rw [← Umat_mul_Umat, Matrix.mul_apply, Fin.sum_univ_two]
  calc ((-Real.cos ((Real.sqrt 2)⁻¹) : ℝ) : ℂ) * (Umat i 0 * Umat 0 j)
        + ((-Real.cos ((Real.sqrt 2)⁻¹) : ℝ) : ℂ) * (Umat i 1 * Umat 1 j)
      = ((-Real.cos ((Real.sqrt 2)⁻¹) : ℝ) : ℂ)
          * (Umat i 0 * Umat 0 j + Umat i 1 * Umat 1 j) := by ring
    _ = (((-Real.cos ((Real.sqrt 2)⁻¹) : ℝ) : ℂ) • (1 : Matrix (Fin 2) (Fin 2) ℂ)) i j := by
        rw [hUU, Matrix.smul_apply, smul_eq_mul]

lemma phi_lc_degen : degenDev.phi_lc = position 2 := by
  show (((8 * degenDev.E_C / degenDev.E_L) ^ (0.25 : ℝ) : ℝ) : ℂ) • position 2
      = position 2
  rw [show (8 * degenDev.E_C / degenDev.E_L : ℝ) = 1 by norm_num [degenDev],
    Real.one_rpow, Complex.ofReal_one, one_smul]

lemma n_lc_degen : degenDev.n_lc = momentum 2 := by
  show (((degenDev.E_L / (8 * degenDev.E_C)) ^ (0.25 : ℝ) : ℝ) : ℂ) • momentum 2
      = momentum 2
  rw [show (degenDev.E_L / (8 * degenDev.E_C) : ℝ) = 1 by norm_num [degenDev],
    Real.one_rpow, Complex.ofReal_one, one_smul]

/-- The LC Hamiltonian of `degenDev` is exactly `degenVal` times the
identity: with `nlev_lc = 2` both `n²` and `φ²` are `(1/2)·I`, and with
`phi_ext = π` the matrix cosine of `φ - π·I` is `-cos(1/√2)·I`, so the
spectrum is doubly degenerate. -/
lemma degen_hamiltonian : degenDev.hamiltonian_lc = ((degenVal : ℝ) : ℂ) • 1 := by
  show (4 * degenDev.E_C : ℂ) • degenDev.n_lc ^ 2
      + (0.5 * degenDev.E_L : ℂ) • degenDev.phi_lc ^ 2
      - (degenDev.E_J : ℂ) • cosm (degenDev.phi_lc - (degenDev.phi_ext : ℂ) • 1)
    = ((degenVal : ℝ) : ℂ) • 1
  rw [phi_lc_degen, n_lc_degen,
    show ((degenDev.phi_ext : ℝ) : ℂ) = ((Real.pi : ℝ) : ℂ) from rfl,
    position_two_sq, momentum_two_sq, cosm_degen,
    smul_smul, smul_smul, smul_smul, ← add_smul, ← sub_smul]
  congr 1
  show (4 * ((1 / 8 : ℝ) : ℂ)) * (1 / 2) + (0.5 * ((1 : ℝ) : ℂ)) * (1 / 2)
      - ((1 : ℝ) : ℂ) * ((-Real.cos ((Real.sqrt 2)⁻¹) : ℝ) : ℂ)
    = ((degenVal : ℝ) : ℂ)
  rw [degenVal]
  push_cast
  ring

lemma degenSolver_ok : degenDev.SolverOK degenSolver := by
  refine ⟨by simp [Fluxonium.evalsOf, degenSolver], ?_, rfl,
    by simp [Fluxonium.statesOf, degenSolver]⟩
  show List.Sorted (· ≤ ·) (List.replicate degenDev.dim degenVal)
  show List.Sorted (· ≤ ·) [degenVal, degenVal]
  simp [List.sorted_cons]

lemma degen_freq_zero : (degenDev.freq degenSolver 0 1).1 = .ok 0 := by
  have hC := cacheOK_none degenDev degenSolver rfl rfl
  have hS := degenSolver_ok
  have hLj := level_eq degenDev degenSolver hS hC 1 (by norm_num)
    (by norm_num [degenDev])
  have hCup := cacheOK_update degenDev degenSolver hC
  have hSup : Fluxonium.SolverOK
      { degenDev with eigvals := some (degenDev.evalsOf degenSolver) }
      degenSolver := hS
  have hLi2 := level_eq
    { degenDev with eigvals := some (degenDev.evalsOf degenSolver) }
    degenSolver hSup hCup 0 (by norm_num) (by norm_num [degenDev])
  simp only [freq, hLj, hLi2, evalsOf_update]
  rw [show degenDev.evalsOf degenSolver = [degenVal, degenVal] from rfl]
  norm_num

/-- C7, counterexample: the claim "`transition_energy(i, j)` is
strictly positive for valid `i < j`" fails on the device
`E_L = 1, E_C = 1/8, E_J = 1, phi_ext = π, nlev_lc = 2` (all parameters
valid): its LC Hamiltonian is exactly `(1/2 + cos(1/√2))·I`, so the two
eigenvalues coincide, any eigensolver satisfying the documented
contract (here: one reporting that doubly degenerate spectrum) makes
`freq(0, 1)` evaluate to `0`, and `0` is not strictly positive. -/
theorem claim_C7_strict_positivity_counterexample :
    degenDev.hamiltonian_lc = ((degenVal : ℝ) : ℂ) • 1 ∧
    degenDev.SolverOK degenSolver ∧
    degenDev.CacheOK degenSolver ∧
    (0 : ℤ) ≤ 0 ∧ (0 : ℤ) < 1 ∧ (1 : ℤ) < degenDev.nlev_lc ∧
    (degenDev.freq degenSolver 0 1).1 = .ok 0 ∧
    ¬(0 : ℝ) < 0 :=
  ⟨degen_hamiltonian, degenSolver_ok,
    cacheOK_none degenDev degenSolver rfl rfl,
    le_refl 0, by norm_num, by norm_num [degenDev],
    degen_freq_zero, lt_irrefl 0⟩

/-- C7, amended: for valid level indices `i < j` the transition energy
`freq(i, j) = level(j) - level(i)` is non-negative (the eigensolver
returns the eigenvalues in ascending order); it need not be strictly
positive, because the spectrum of the truncated Hamiltonian can be
degenerate (e.g. at `nlev_lc = 2`, `phi_ext = π` the Hamiltonian is a
real multiple of the identity and `freq(0, 1) = 0`). -/
theorem claim_C7_transition_nonneg (S : Solver) (f : Fluxonium) (i j : ℤ)
    (hS : f.SolverOK S) (hC : f.CacheOK S)
    (hi0 : 0 ≤ i) (hij : i < j) (hj1 : j < f.nlev_lc) :
    (f.freq S i j).1 =
      .ok ((f.evalsOf S).getD j.toNat 0 - (f.evalsOf S).getD i.toNat 0) ∧
    0 ≤ (f.evalsOf S).getD j.toNat 0 - (f.evalsOf S).getD i.toNat 0 := by
  have hj0 : (0 : ℤ) ≤ j := by omega
  have hi1 : i < f.nlev_lc := by omega
  have hLj := level_eq f S hS hC j hj0 hj1
  have hCup := cacheOK_update f S hC
  have hSup : Fluxonium.SolverOK { f with eigvals := some (f.evalsOf S) } S := hS
  have hLi2 := level_eq { f with eigvals := some (f.evalsOf S) } S hSup hCup i
    hi0 hi1
  constructor
  · simp only [freq, hLj, hLi2, evalsOf_update]
  · have hjL : j.toNat < (f.evalsOf S).length := by
      rw [hS.1]; unfold Fluxonium.dim; omega
    have hiL : i.toNat < (f.evalsOf S).length := by
      rw [hS.1]; unfold Fluxonium.dim; omega
    rw [sub_nonneg, List.getD_eq_get _ _ hiL, List.getD_eq_get _ _ hjL]
    exact List.pairwise_iff_get.mp hS.2.1 ⟨i.toNat, hiL⟩ ⟨j.toNat, hjL⟩
      (by simp only [Fin.mk_lt_mk]; omega)

/-- Witness for the amended C7 on the sample device with `i = 0`,
`j = 1`. -/
theorem claim_C7_transition_nonneg_witness :
    (sampleDev.freq (trivSolver 0) 0 1).1 =
      .ok ((sampleDev.evalsOf (trivSolver 0)).getD ((1 : ℤ)).toNat 0
        - (sampleDev.evalsOf (trivSolver 0)).getD ((0 : ℤ)).toNat 0) ∧
    0 ≤ (sampleDev.evalsOf (trivSolver 0)).getD ((1 : ℤ)).toNat 0
        - (sampleDev.evalsOf (trivSolver 0)).getD ((0 : ℤ)).toNat 0 :=
  claim_C7_transition_nonneg (trivSolver 0) sampleDev 0 1
    (solverOK_triv 0 sampleDev) (cacheOK_none sampleDev (trivSolver 0) rfl rfl)
    (by norm_num) (by norm_num) (by norm_num [sampleDev])
